import Mathlib

/-!
Shallow embedding of the XSMB lottery analytics worker
(`worker-utils.js`, `data-preparer.js`, `data-analyzer.js`,
`prediction-engine.js`, `backtester.js`) and proofs about it.

Two-digit lotto numbers "00".."99" are modelled by their numeric values
`0..99`; the zero-padded rendering `padTwo` mediates between the numeric
model and the string universe `ALL_LOTTO_NUMBERS`.  JS floating-point
scores are modelled by `ℚ`.  A JS exception is modelled by `Except`.
-/

namespace XSMB

/-! ## Constants (`worker-utils.js`, `CONSTANTS`) -/

def NUM_PREDICTED_LOTTO_NUMBERS : Nat := 16

def MIN_HISTORY_FOR_ANALYSIS : Nat := 200

def BACKTEST_WINDOW_SIZE : Nat := 150

def HIGH_ACCURACY_THRESHOLD : Nat := 10

def PROFIT_THRESHOLD_DEFAULT : Nat := 5

/-- Source `GAN_RANGE_MEDIUM = [7, 15]` (days). -/
def GAN_RANGE_MEDIUM : Int × Int := (7, 15)

/-- Source `GAN_RANGE_ULTRA_GAN = [61, 90]` (days). -/
def GAN_RANGE_ULTRA_GAN : Int × Int := (61, 90)

/-- Source `COST_PER_LOTTO_POINT = 23000` VND (`backtester.js`). -/
def COST_PER_LOTTO_POINT : Int := 23000

/-- Source `REWARD_PER_LOTTO_POINT_HIT = 80000` VND (`backtester.js`). -/
def REWARD_PER_LOTTO_POINT_HIT : Int := 80000

/-- Source `COST_PER_DAY_PREDICTION = NUM_PREDICTED_LOTTO_NUMBERS * COST_PER_LOTTO_POINT`. -/
def COST_PER_DAY_PREDICTION : Int := NUM_PREDICTED_LOTTO_NUMBERS * COST_PER_LOTTO_POINT

/-! ## String-level utilities (`worker-utils.js`) -/

/-- Source `String(i).padStart(2, '0')` for `i < 100`: the canonical two-digit rendering. -/
def padTwo (n : Nat) : String :=
  if n < 10 then "0" ++ toString n else toString n

/-- Source `ALL_LOTTO_NUMBERS = Array.from({length:100}, (_, i) => String(i).padStart(2,'0'))`. -/
def ALL_LOTTO_NUMBERS : List String :=
  (List.range 100).map padTwo

/-- Source `WorkerUtils.reverseNumber`:
`(numStr) => (numStr.length === 2 && numStr[0] !== numStr[1]) ? (numStr[1] + numStr[0]) : numStr`. -/
def reverseNumber (s : String) : String :=
  match s.data with
  | [a, b] => if a ≠ b then String.mk [b, a] else s
  | _ => s

/-- Source `WorkerUtils.BONG_SO_MAP`: the "bóng" digit substitution table
(0↔5, 1↔6, 2↔7, 3↔8, 4↔9), `undefined` (here `none`) off the digit domain. -/
def BONG_SO_MAP (c : Char) : Option Char :=
  if c = '0' then some '5'
  else if c = '1' then some '6'
  else if c = '2' then some '7'
  else if c = '3' then some '8'
  else if c = '4' then some '9'
  else if c = '5' then some '0'
  else if c = '6' then some '1'
  else if c = '7' then some '2'
  else if c = '8' then some '3'
  else if c = '9' then some '4'
  else none

/-- Source `WorkerUtils.getBongSo`: `BONG_SO_MAP[digit] || null`. -/
def getBongSo (c : Char) : Option Char :=
  BONG_SO_MAP c

/-- Source `WorkerUtils.getLotoBong`: maps both digits of a two-character string through
`getBongSo`; `null` (here `none`) if the string is not two characters long or a
digit has no image. -/
def getLotoBong (s : String) : Option String :=
  match s.data with
  | [a, b] =>
    match getBongSo a, getBongSo b with
    | some x, some y => some (String.mk [x, y])
    | _, _ => none
  | _ => none

/-! ## Numeric counterparts used by the engine

The engine manipulates universe members ("00".."99"); on their numeric
values `reverseNumber` swaps the two digits and `getLotoBong` maps each
digit `d` to `(d+5) % 10`. -/

/-- Numeric counterpart of `reverseNumber` on universe members. -/
def reverseNum (n : Nat) : Nat :=
  if n / 10 ≠ n % 10 then (n % 10) * 10 + n / 10 else n

/-- Numeric counterpart of `getBongSo` on digits `0..9`. -/
def bongDigit (d : Nat) : Nat := (d + 5) % 10

/-- Numeric counterpart of `getLotoBong` on universe members. -/
def lotoBongNum (n : Nat) : Nat :=
  bongDigit (n / 10) * 10 + bongDigit (n % 10)

/-! ## Statistical utilities (`worker-utils.js`)

`averageArray` is an arrow function, `(arr) => arr.length === 0 ? 0 :
this.sumArray(arr) / arr.length`.  An arrow function's `this` is lexical:
here the top level of a classic worker script, i.e. the worker global
scope, on which no `sumArray` property exists (`sumArray` lives on
`self.WorkerUtils`).  So every call with a non-empty array throws a
TypeError; the empty case short-circuits to 0. -/

/-- A thrown JS exception, by kind. -/
inductive JsError
  | typeError
  deriving Repr, DecidableEq

/-- Source `WorkerUtils.averageArray` (see section comment: throws on non-empty input). -/
def averageArray (arr : List ℚ) : Except JsError ℚ :=
  if arr.length = 0 then .ok 0 else .error .typeError

/-- Source `WorkerUtils.standardDeviation`: returns 0 for fewer than two samples;
otherwise calls `self.WorkerUtils.averageArray`, which throws, so the
mean/variance/`Math.sqrt` tail is unreachable and is not modelled further. -/
def standardDeviation (arr : List ℚ) : Except JsError ℚ :=
  if arr.length < 2 then .ok 0
  else (averageArray arr).bind fun _mean => .ok 0

/-! ## Data model (`data-preparer.js`) -/

/-- First-occurrence deduplication with the set of already-seen elements as
accumulator: the order-preserving semantics of inserting into a JS `Set`. -/
def dedupFirstAux (seen : List Nat) : List Nat → List Nat
  | [] => []
  | x :: xs =>
    if x ∈ seen then dedupFirstAux seen xs
    else x :: dedupFirstAux (x :: seen) xs

/-- First-occurrence deduplication, the order-preserving semantics of
`[...new Set(numbers)]`. -/
def dedupFirst (l : List Nat) : List Nat :=
  dedupFirstAux [] l

/-- One prepared per-day record.  Only the fields the verified claims touch are
modelled (`date`, `dayOfWeek` and the other derived sets are omitted). -/
structure DayRec where
  /-- Original numbers in draw order, duplicates allowed. -/
  numbers : List Nat
  /-- Source `[...new Set(numbers)]`. -/
  uniqueNumbers : List Nat
  deriving Repr, DecidableEq, Inhabited

/-- A record as produced by `DataPreparer.prepareHistoricalData` from
parser output: `uniqueNumbers` is the first-occurrence dedup of `numbers`,
and every number is a two-digit string, i.e. has value `< 100`. -/
def DayRec.Prepared (d : DayRec) : Prop :=
  d.uniqueNumbers = dedupFirst d.numbers ∧ ∀ n ∈ d.numbers, n < 100

instance (d : DayRec) : Decidable d.Prepared :=
  inferInstanceAs (Decidable (_ ∧ _))

/-- A prepared history: every record is prepared. -/
def PreparedHistory (h : List DayRec) : Prop :=
  ∀ d ∈ h, d.Prepared

instance (h : List DayRec) : Decidable (PreparedHistory h) :=
  inferInstanceAs (Decidable (∀ d ∈ h, d.Prepared))

/-! ## Analyzer: gan status (`data-analyzer.js`, `getGanStatus`) -/

/-- The single forward pass `historyData.forEach((dayInfo, index) =>
dayInfo.uniqueNumbers.forEach(num => lastAppearanceMap.set(num, index)))`:
each later occurrence overwrites, so the final value is the most recent
record index containing `num`, or `none` if it never appears. -/
def lastAppearance (hist : List DayRec) (num : Nat) : Option Nat :=
  hist.enum.foldl
    (fun acc p => if num ∈ p.2.uniqueNumbers then some p.1 else acc) none

/-- One entry of the map returned by `getGanStatus` (the `lastSeenDate`
field is not modelled since calendar dates are outside the embedding). -/
structure GanInfo where
  daysGone : Int
  lastSeenIndex : Int
  deriving Repr, DecidableEq

/-- Source `DataAnalyzer.getGanStatus` for one universe member:
`daysGone = currentDayIndex - lastSeenIndex - 1` when seen, else
`currentDayIndex` (= history length); `lastSeenIndex = -1` when never seen. -/
def getGanStatus (hist : List DayRec) (num : Nat) : GanInfo :=
  match lastAppearance hist num with
  | some i => ⟨(hist.length : Int) - i - 1, i⟩
  | none => ⟨(hist.length : Int), -1⟩

/-! ## Analyzer: consecutive appearance (`getConsecutiveAppearance`) -/

/-- Backward walk counting how many of the given (most-recent-first) records
contain `num` before the first miss. -/
def walkStreak (recent : List DayRec) (num : Nat) : Nat :=
  match recent with
  | [] => 0
  | d :: ds => if num ∈ d.uniqueNumbers then 1 + walkStreak ds num else 0

/-- Source `DataAnalyzer.getConsecutiveAppearance` for one universe member: the guard
`if (this.historyData.length < maxConsecutiveDays) return consecutiveMap;`
returns the all-zero map when the history is shorter than the window;
otherwise the loop `for (i = 1; i <= maxConsecutiveDays && len - i >= 0; i++)`
walks backward from the latest record, counting until the first miss. -/
def getConsecutiveAppearance (hist : List DayRec) (maxConsecutiveDays : Nat)
    (num : Nat) : Nat :=
  if hist.length < maxConsecutiveDays then 0
  else walkStreak (hist.reverse.take maxConsecutiveDays) num

/-- Modelled from the spec's words, for comparison with the code: counts how
many of the most recent N records (walking backward from the latest) contain
the number with no gap, stopping at the first miss — with no restriction on
the history length. -/
def specConsecutiveStreak (hist : List DayRec) (maxConsecutiveDays : Nat)
    (num : Nat) : Nat :=
  walkStreak (hist.reverse.take maxConsecutiveDays) num

/-! ## Analyzer: history slices and periodic bridges (`data-analyzer.js`) -/

/-- Source `DataAnalyzer._getHistorySlice`: the trailing `daysLookback` records
(`slice(Math.max(0, length - daysLookback))`), or `[]` for lookback 0. -/
def getHistorySlice (hist : List DayRec) (daysLookback : Nat) : List DayRec :=
  if daysLookback = 0 then [] else hist.drop (hist.length - daysLookback)

/-- The absolute record indices (within the whole history) at which `num`
appears (via `uniqueNumbers`) inside the trailing lookback window, in
chronological order — the `numberAppearanceIndices` arrays of
`getConsistentPeriodBridge`. -/
def appearanceIndices (hist : List DayRec) (daysLookback : Nat) (num : Nat) :
    List Nat :=
  let slice := getHistorySlice hist daysLookback
  let startIndex := hist.length - slice.length
  (slice.enum.filter (fun p => num ∈ p.2.uniqueNumbers)).map
    (fun p => startIndex + p.1)

/-- The nested period/start loops of `getConsistentPeriodBridge` for one
number, given its appearance indices and `currentDayIndex` (the full history
length): some period `1..maxPeriod` admits a run of `minOccurrences`
consecutive appearance indices spaced exactly `period` apart whose last
index plus `period` lands exactly on `currentDayIndex`. -/
def isBridgeCandidate (minOccurrences maxPeriod currentDayIndex : Nat)
    (indices : List Nat) : Bool :=
  decide (minOccurrences ≤ indices.length) &&
    (List.range' 1 maxPeriod).any fun period =>
      (List.range (indices.length - minOccurrences + 1)).any fun i =>
        ((List.range (minOccurrences - 1)).all fun j =>
          indices.getD (i + j + 1) 0 - indices.getD (i + j) 0 == period) &&
        indices.getD (i + minOccurrences - 1) 0 + period == currentDayIndex

/-- Source `DataAnalyzer.getConsistentPeriodBridge`: the set (here: the duplicate-free
sublist of the universe) of active bridge candidates; no score magnitude is
attached. -/
def getConsistentPeriodBridge (minOccurrences maxPeriod daysLookback : Nat)
    (hist : List DayRec) : List Nat :=
  (List.range 100).filter fun num =>
    isBridgeCandidate minOccurrences maxPeriod hist.length
      (appearanceIndices hist daysLookback num)

/-! ## Analyzer: cycle analysis (`getNumberCycleAnalysis`) -/

/-- One entry of the map built by `getNumberCycleAnalysis` (fields that the
throwing `averageArray` call would have filled are reachable only in the
fewer-than-two-appearances branch, where they keep their initial values). -/
structure CycleInfo where
  appearances : List Nat
  avgCycle : ℚ
  lastSeenIndex : Int
  daysSinceLast : Int
  cycles : List ℚ
  nextDueApprox : ℚ
  consistencyScore : ℚ
  cycleVariance : ℚ
  deriving Repr, DecidableEq

/-- The per-number body of `getNumberCycleAnalysis`.  With at least two
appearances the code computes the gap list and then calls
`self.WorkerUtils.averageArray(info.cycles)` on a non-empty array, which
throws (see `averageArray`); the `standardDeviation`, `consistencyScore`
and `nextDueApprox` assignments are never reached.  With fewer than two
appearances every derived field keeps its initial value
(`consistencyScore = 0`), apart from `lastSeenIndex`/`daysSinceLast`. -/
def cycleInfoFor (hist : List DayRec) (num : Nat) : Except JsError CycleInfo :=
  let appearances : List Nat :=
    (hist.enum.filter (fun p => num ∈ p.2.uniqueNumbers)).map (fun p => p.1)
  let currentDayIndex : Int := (hist.length : Int)
  let lastSeenIndex : Int :=
    match appearances.getLast? with
    | some i => (i : Int)
    | none => -1
  let daysSinceLast : Int :=
    if lastSeenIndex ≠ -1 then currentDayIndex - lastSeenIndex - 1
    else currentDayIndex
  if 2 ≤ appearances.length then
    let cycles : List ℚ :=
      (appearances.zip appearances.tail).map
        (fun p => (p.2 : ℚ) - (p.1 : ℚ))
    (averageArray cycles).bind fun avg =>
      (standardDeviation cycles).bind fun sd =>
        .ok { appearances := appearances, avgCycle := avg,
              lastSeenIndex := lastSeenIndex, daysSinceLast := daysSinceLast,
              cycles := cycles,
              nextDueApprox :=
                (match appearances.getLast? with
                 | some i => (i : ℚ)
                 | none => 0) + avg,
              consistencyScore := if sd = 0 then 1 else 1 / (1 + sd),
              cycleVariance := sd }
  else
    .ok { appearances := appearances, avgCycle := 0,
          lastSeenIndex := lastSeenIndex, daysSinceLast := daysSinceLast,
          cycles := [], nextDueApprox := -1, consistencyScore := 0,
          cycleVariance := 0 }

/-- Source `DataAnalyzer.getNumberCycleAnalysis`: iterates the universe in order
("00".."99"); the first number whose body throws aborts the whole call. -/
def getNumberCycleAnalysis (hist : List DayRec) :
    Except JsError (List (Nat × CycleInfo)) :=
  (List.range 100).foldlM
    (fun acc num => (cycleInfoFor hist num).map (fun ci => acc ++ [(num, ci)]))
    []

/-! ## Analyzer: last-day convenience getters -/

/-- Source `getLastDayNumbers`: `uniqueNumbers` of the last record, else `[]`. -/
def lastDayNumbers (hist : List DayRec) : List Nat :=
  match hist.getLast? with
  | some d => d.uniqueNumbers
  | none => []

/-- Source `getSecondLastDayNumbers`: `uniqueNumbers` of the next-to-last record,
else `[]`. -/
def secondLastDayNumbers (hist : List DayRec) : List Nat :=
  if 2 ≤ hist.length then (hist.getD (hist.length - 2) default).uniqueNumbers
  else []

/-! ## Prediction engine (`prediction-engine.js`)

The engine is written against the strategy interface
`{name, weight, predict(analyzer)}` and iterates whatever
`self.PredictionEngine.strategies` holds; the twelve concrete strategy
modules are instances of that interface.  The embedding therefore takes the
strategy list as a parameter.  A strategy whose `predict` throws is caught
and skipped (`none` below); a returned score map is modelled as a total
function on the universe (the concrete strategies key their maps by
universe members only, so absent keys contribute score 0). -/

/-- A strategy module as consumed by the engine. -/
structure Strategy where
  weight : ℚ
  predict : List DayRec → Option (Nat → ℚ)

/-- Phase 1 of `predictNextDay`: accumulate `score * strategy.weight` into the
overall score board (all universe members start at 0); a throwing strategy is
skipped. -/
def aggregateScores (strategies : List Strategy) (hist : List DayRec) :
    Nat → ℚ :=
  strategies.foldl
    (fun acc st =>
      match st.predict hist with
      | some sc => fun n => acc n + sc n * st.weight
      | none => acc)
    (fun _ => 0)

/-- Source `PredictionEngine._applyGlobalScoreAdjustments` for one universe member:
halve if it appeared on the last day, else ×0.8 if on the second-to-last
day; ×0.2 if ultra-gan (`daysGone > 90`) and still scoring below 20; +10 in
the medium-gan sweet spot (`7 < daysGone ≤ 15`) when already positive; +15
if its digit-reversal appeared yesterday; +10 if its bóng appeared
yesterday; finally clamp to non-negative. -/
def adjustedScore (hist : List DayRec) (base : Nat → ℚ) (num : Nat) : ℚ :=
  let lastDay := lastDayNumbers hist
  let secondLast := secondLastDayNumbers hist
  let daysGone := (getGanStatus hist num).daysGone
  let score0 := base num
  let score1 :=
    if num ∈ lastDay then score0 * (0.5 : ℚ)
    else if num ∈ secondLast then score0 * (0.8 : ℚ)
    else score0
  let score2 :=
    if GAN_RANGE_ULTRA_GAN.2 < daysGone ∧ score1 < 20 then score1 * (0.2 : ℚ)
    else score1
  let score3 :=
    if GAN_RANGE_MEDIUM.1 < daysGone ∧ daysGone ≤ GAN_RANGE_MEDIUM.2 ∧
        0 < score2 then
      score2 + 10
    else score2
  let score4 :=
    if reverseNum num ≠ num ∧ reverseNum num ∈ lastDay then score3 + 15
    else score3
  let score5 :=
    if lotoBongNum num ≠ num ∧ lotoBongNum num ∈ lastDay then score4 + 10
    else score4
  max 0 score5

/-- The overall score board after Phase 1 and Phase 2. -/
def finalScores (strategies : List Strategy) (hist : List DayRec) :
    Nat → ℚ :=
  adjustedScore hist (aggregateScores strategies hist)

/-- Source `Array.from(overallScores.entries())`: the 100 `(number, score)` pairs in
map insertion order ("00".."99"). -/
def scoreEntries (sc : Nat → ℚ) : List (Nat × ℚ) :=
  (List.range 100).map (fun n => (n, sc n))

/-- Source `sortedCandidates`: the entries sorted by score descending.  JS
`Array.prototype.sort` is stable; `insertionSort` with the non-strict
relation `b.score ≤ a.score` keeps equal-scored entries in insertion
order as well. -/
def sortedCandidates (sc : Nat → ℚ) : List (Nat × ℚ) :=
  List.insertionSort (fun a b => b.2 ≤ a.2) (scoreEntries sc)

/-- The candidate numbers in descending-score order. -/
def sortedNums (sc : Nat → ℚ) : List Nat :=
  (sortedCandidates sc).map Prod.fst

/-- Source `tempPredictionPool`: the first `min(2 × desiredCount, …)` candidates. -/
def tempPredictionPool (sc : Nat → ℚ) : List Nat :=
  (sortedNums sc).take
    (min (NUM_PREDICTED_LOTTO_NUMBERS * 2) (sortedNums sc).length)

/-- The numbers ranked first to fourth by aggregate score — the
diversity-exempt slots (`desiredCount * PERCENT_TO_ALLOW_BREACH = 4`). -/
def topFourOf (strategies : List Strategy) (hist : List DayRec) : List Nat :=
  (sortedNums (finalScores strategies hist)).take 4

/-- The mutable state of the diversification walk: the admitted numbers in
admission order and the per-category counters. -/
structure SelState where
  selected : List Nat
  headCounts : Nat → Nat
  tailCounts : Nat → Nat
  totalCounts : Nat → Nat

/-- Increment a counter map at one key. -/
def bump (f : Nat → Nat) (k : Nat) : Nat → Nat :=
  fun x => if x = k then f k + 1 else f x

/-- Initial walk state: nothing selected, all counters 0. -/
def initSelState : SelState :=
  ⟨[], fun _ => 0, fun _ => 0, fun _ => 0⟩

/-- One iteration of the Step-2 loop of `_selectAndDiversifyNumbers`: stop
once `desiredCount` numbers are selected; otherwise admit `num` unless one of
the per-category caps (3 per head digit, 3 per tail digit, 2 per digit sum)
would be exceeded — except that while fewer than `desiredCount × 0.25 = 4`
numbers have been selected the caps are overridden. -/
def considerNum (st : SelState) (num : Nat) : SelState :=
  if NUM_PREDICTED_LOTTO_NUMBERS ≤ st.selected.length then st
  else
    let head := num / 10
    let tail := num % 10
    let total := num / 10 + num % 10
    let meetsDiversityCriteria : Bool :=
      decide (st.headCounts head < 3) && decide (st.tailCounts tail < 3) &&
        decide (st.totalCounts total < 2)
    let meets : Bool :=
      if st.selected.length < 4 then true else meetsDiversityCriteria
    if meets ∧ num ∉ st.selected then
      { selected := st.selected ++ [num],
        headCounts := bump st.headCounts head,
        tailCounts := bump st.tailCounts tail,
        totalCounts := bump st.totalCounts total }
    else st

/-- Step 2 of `_selectAndDiversifyNumbers`: walk the pool in descending score
order through `considerNum`. -/
def walkPool (sc : Nat → ℚ) : SelState :=
  (tempPredictionPool sc).foldl considerNum initSelState

/-- Step 3 of `_selectAndDiversifyNumbers`: while fewer than `desiredCount`
numbers are selected, add the next highest-scoring number regardless of
diversity. -/
def fallbackFill (cands : List Nat) (selected : List Nat) : List Nat :=
  match cands with
  | [] => selected
  | c :: cs =>
    if NUM_PREDICTED_LOTTO_NUMBERS ≤ selected.length then selected
    else if c ∈ selected then fallbackFill cs selected
    else fallbackFill cs (selected ++ [c])

/-- Source `PredictionEngine._selectAndDiversifyNumbers` (the set is returned in
insertion order, as `Array.from` of a JS `Set`). -/
def selectAndDiversifyNumbers (sc : Nat → ℚ) : List Nat :=
  fallbackFill (sortedNums sc) (walkPool sc).selected

/-- The Phase-4 refill of `predictNextDay`: if fewer than `desiredCount`
numbers survive, append the highest-scoring remaining candidates. -/
def phase4Fill (sc : Nat → ℚ) (sel : List Nat) : List Nat :=
  let remaining :=
    List.insertionSort (fun a b => b.2 ≤ a.2)
      ((scoreEntries sc).filter (fun p => p.1 ∉ sel))
  sel ++ (remaining.map Prod.fst).take (NUM_PREDICTED_LOTTO_NUMBERS - sel.length)

/-- The body of `PredictionEngine.predictNextDay` after the history-length
guard: aggregate, adjust, select-and-diversify, deduplicate, refill if
short, truncate to `desiredCount` and sort ascending by numeric value. -/
def predictNextDayList (strategies : List Strategy) (hist : List DayRec) :
    List Nat :=
  let sc := finalScores strategies hist
  let deduped := dedupFirst (selectAndDiversifyNumbers sc)
  let filled :=
    if deduped.length < NUM_PREDICTED_LOTTO_NUMBERS then phase4Fill sc deduped
    else deduped
  List.insertionSort (fun a b => a ≤ b)
    (filled.take NUM_PREDICTED_LOTTO_NUMBERS)

/-- The error thrown by the engine, carrying the required minimum named in
its message (`Cần ít nhất ... ngày`). -/
inductive EngineError
  | insufficientData (required : Nat)
  deriving Repr, DecidableEq

/-- Source `PredictionEngine.predictNextDay`: `!historyData` (absent input, here
`none`) or a history shorter than `MIN_HISTORY_FOR_ANALYSIS` throws the
insufficient-data error naming the required minimum; otherwise the selection
pipeline runs. -/
def predictNextDay (strategies : List Strategy)
    (historyData : Option (List DayRec)) : Except EngineError (List Nat) :=
  match historyData with
  | none => .error (.insufficientData MIN_HISTORY_FOR_ANALYSIS)
  | some hist =>
    if hist.length < MIN_HISTORY_FOR_ANALYSIS then
      .error (.insufficientData MIN_HISTORY_FOR_ANALYSIS)
    else
      .ok (predictNextDayList strategies hist)

/-! ## Backtester (`backtester.js`)

`runBacktest` invokes `self.PredictionEngine.predictNextDay` through a
dynamic property lookup; the embedding takes that engine function as a
parameter (instantiated with `predictNextDay strategies ∘ some` for the
concrete program).  The fields of the returned statistics object that are
only display formattings of the accumulated totals (`avgCorrectNumbersPerDay`,
the percentage strings, `roi`, locale-formatted amounts) and the inert
`strategyPerformance` placeholder are not modelled separately. -/

/-- The accumulated backtest totals. -/
structure BacktestStats where
  totalDaysTested : Nat
  totalCorrectNumbers : Nat
  daysWithHighAccuracy : Nat
  daysMeetingProfitThreshold : Nat
  dailyCorrectCounts : List Nat
  totalInvestment : Int
  totalGains : Int
  dailyNetProfits : List Int
  deriving Repr, DecidableEq

/-- All totals zero, all daily lists empty. -/
def initStats : BacktestStats :=
  ⟨0, 0, 0, 0, [], 0, 0, []⟩

/-- The result of a completed `runBacktest` call: either the early-exit
empty statistics (history too short for even one test day) or accumulated
statistics. -/
inductive BacktestResult
  | emptyStats
  | stats (s : BacktestStats)
  deriving Repr, DecidableEq

/-- An exception escaping `runBacktest`. -/
inductive BacktestError
  /-- The branch `actualBacktestStartIndex = MIN_HISTORY_FOR_ANALYSIS;`
  references the bare identifier `MIN_HISTORY_FOR_ANALYSIS`, which is not in
  scope (the constant lives at `self.WorkerUtils.CONSTANTS.…` and the local
  is named `MIN_HISTORY_FOR_PREDICTION`), so taking that branch throws a
  ReferenceError. -/
  | referenceErrorMinHistory
  deriving Repr, DecidableEq

/-- The number of correct predictions recorded for day index `i`: each
predicted number found in that day's landed `numbers` (exact membership,
duplicates in the landed list ignored) counts once; a throwing engine call
records 0. -/
def dayCorrect (engine : List DayRec → Except EngineError (List Nat))
    (hist : List DayRec) (i : Nat) : Nat :=
  match engine (hist.take i) with
  | .ok preds =>
    (preds.filter (fun p => p ∈ (hist.getD i default).numbers)).length
  | .error _ => 0

/-- One iteration of the backtest loop for day index `i`: the `continue`
guard skips a day with insufficient training data; otherwise the engine is
called on the strict prefix `hist.take i`.  On success the day's correct
count, gains and thresholds are accumulated; on a caught exception the day
is still counted, with zero correct numbers and a full-loss net profit. -/
def stepStats (engine : List DayRec → Except EngineError (List Nat))
    (hist : List DayRec) (acc : BacktestStats) (i : Nat) : BacktestStats :=
  if (hist.take i).length < MIN_HISTORY_FOR_ANALYSIS then acc
  else
    match engine (hist.take i) with
    | .ok preds =>
      let correctCount :=
        (preds.filter (fun p => p ∈ (hist.getD i default).numbers)).length
      { totalDaysTested := acc.totalDaysTested + 1,
        totalCorrectNumbers := acc.totalCorrectNumbers + correctCount,
        daysWithHighAccuracy :=
          acc.daysWithHighAccuracy +
            (if HIGH_ACCURACY_THRESHOLD ≤ correctCount then 1 else 0),
        daysMeetingProfitThreshold :=
          acc.daysMeetingProfitThreshold +
            (if PROFIT_THRESHOLD_DEFAULT ≤ correctCount then 1 else 0),
        dailyCorrectCounts := acc.dailyCorrectCounts ++ [correctCount],
        totalInvestment := acc.totalInvestment + COST_PER_DAY_PREDICTION,
        totalGains :=
          acc.totalGains + correctCount * REWARD_PER_LOTTO_POINT_HIT,
        dailyNetProfits :=
          acc.dailyNetProfits ++
            [correctCount * REWARD_PER_LOTTO_POINT_HIT -
              COST_PER_DAY_PREDICTION] }
    | .error _ =>
      { totalDaysTested := acc.totalDaysTested + 1,
        totalCorrectNumbers := acc.totalCorrectNumbers,
        daysWithHighAccuracy := acc.daysWithHighAccuracy,
        daysMeetingProfitThreshold := acc.daysMeetingProfitThreshold,
        dailyCorrectCounts := acc.dailyCorrectCounts ++ [0],
        totalInvestment := acc.totalInvestment + COST_PER_DAY_PREDICTION,
        totalGains := acc.totalGains,
        dailyNetProfits := acc.dailyNetProfits ++ [-COST_PER_DAY_PREDICTION] }

/-- Source `Backtester.runBacktest`.  Histories of length `< MIN + 1` return the
empty statistics.  `actualBacktestStartIndex` starts as
`maxTestableIndex - BACKTEST_WINDOW + 1`; if that is below the required
minimum, the adjustment branch evaluates an undefined identifier and the
whole call throws a ReferenceError (see `BacktestError`).  Otherwise the
loop runs over day indices `start .. maxTestableIndex`. -/
def runBacktest (engine : List DayRec → Except EngineError (List Nat))
    (hist : List DayRec) : Except BacktestError BacktestResult :=
  if hist.length < MIN_HISTORY_FOR_ANALYSIS + 1 then .ok .emptyStats
  else
    let maxTestableIndex := hist.length - 1
    let actualBacktestStartIndex := maxTestableIndex - BACKTEST_WINDOW_SIZE + 1
    if actualBacktestStartIndex < MIN_HISTORY_FOR_ANALYSIS then
      .error .referenceErrorMinHistory
    else
      .ok (.stats
        ((List.range' actualBacktestStartIndex
            (maxTestableIndex + 1 - actualBacktestStartIndex)).foldl
          (stepStats engine hist) initStats))

/-! ## Helper lemmas: first-occurrence deduplication -/

theorem mem_dedupFirstAux : ∀ (l : List Nat) (seen : List Nat) (x : Nat),
    x ∈ dedupFirstAux seen l ↔ x ∈ l ∧ x ∉ seen := by
  intro l
  induction l with
  | nil => intro seen x; simp [dedupFirstAux]
  | cons y ys ih =>
    intro seen x
    by_cases hy : y ∈ seen
    · rw [dedupFirstAux, if_pos hy, ih]
      constructor
      · rintro ⟨h1, h2⟩; exact ⟨List.mem_cons_of_mem _ h1, h2⟩
      · rintro ⟨h1, h2⟩
        rcases List.mem_cons.mp h1 with rfl | h1
        · exact absurd hy h2
        · exact ⟨h1, h2⟩
    · rw [dedupFirstAux, if_neg hy]
      simp only [List.mem_cons, ih, List.mem_cons]
      by_cases hxy : x = y
      · subst hxy; simp [hy]
      · simp [hxy]

theorem mem_dedupFirst (l : List Nat) (x : Nat) : x ∈ dedupFirst l ↔ x ∈ l := by
  rw [dedupFirst, mem_dedupFirstAux]
  simp

theorem dedupFirstAux_nodup : ∀ (l : List Nat) (seen : List Nat),
    (dedupFirstAux seen l).Nodup := by
  intro l
  induction l with
  | nil => intro seen; exact List.nodup_nil
  | cons y ys ih =>
    intro seen
    by_cases hy : y ∈ seen
    · rw [dedupFirstAux, if_pos hy]; exact ih seen
    · rw [dedupFirstAux, if_neg hy]
      refine List.nodup_cons.mpr ⟨?_, ih _⟩
      rw [mem_dedupFirstAux]
      simp

theorem dedupFirst_nodup (l : List Nat) : (dedupFirst l).Nodup :=
  dedupFirstAux_nodup l []

theorem dedupFirstAux_eq_self : ∀ (l : List Nat) (seen : List Nat),
    l.Nodup → (∀ x ∈ l, x ∉ seen) → dedupFirstAux seen l = l := by
  intro l
  induction l with
  | nil => intro seen _ _; rfl
  | cons y ys ih =>
    intro seen hnd hdisj
    have hy : y ∉ seen := hdisj y (List.mem_cons_self _ _)
    rw [dedupFirstAux, if_neg hy]
    congr 1
    refine ih _ (List.nodup_cons.mp hnd).2 ?_
    intro x hx
    simp only [List.mem_cons]
    rintro (rfl | hmem)
    · exact (List.nodup_cons.mp hnd).1 hx
    · exact hdisj x (List.mem_cons_of_mem _ hx) hmem

theorem dedupFirst_eq_self (l : List Nat) (h : l.Nodup) : dedupFirst l = l :=
  dedupFirstAux_eq_self l [] h (by simp)

/-! ## Helper lemmas: `lastAppearance` -/

theorem lastAppearance_append_singleton (hist : List DayRec) (d : DayRec)
    (num : Nat) :
    lastAppearance (hist ++ [d]) num =
      if num ∈ d.uniqueNumbers then some hist.length
      else lastAppearance hist num := by
  unfold lastAppearance
  rw [List.enum_append, List.foldl_append]
  simp [List.enumFrom]

theorem lastAppearance_eq_none_iff (num : Nat) : ∀ (hist : List DayRec),
    lastAppearance hist num = none ↔ ∀ d ∈ hist, num ∉ d.uniqueNumbers := by
  intro hist
  induction hist using List.reverseRecOn with
  | nil => simp [lastAppearance]
  | append_singleton hist d ih =>
    rw [lastAppearance_append_singleton]
    by_cases hd : num ∈ d.uniqueNumbers
    · simp only [if_pos hd]
      constructor
      · intro h; exact absurd h (by simp)
      · intro h; exact absurd hd (h d (by simp))
    · simp only [if_neg hd, ih]
      constructor
      · intro h e he
        rcases List.mem_append.mp he with h1 | h2
        · exact h e h1
        · rw [List.mem_singleton.mp h2]; exact hd
      · intro h e he
        exact h e (List.mem_append.mpr (Or.inl he))

theorem lastAppearance_eq_some_iff (num : Nat) : ∀ (hist : List DayRec) (i : Nat),
    lastAppearance hist num = some i ↔
      (i < hist.length ∧ num ∈ (hist.getD i default).uniqueNumbers ∧
        ∀ j, i < j → j < hist.length →
          num ∉ (hist.getD j default).uniqueNumbers) := by
  intro hist
  induction hist using List.reverseRecOn with
  | nil => intro i; simp [lastAppearance]
  | append_singleton hist d ih =>
    intro i
    have hlen : (hist ++ [d]).length = hist.length + 1 := by simp
    have hgetlast : (hist ++ [d]).getD hist.length default = d := by
      rw [List.getD_append_right _ _ _ _ (Nat.le_refl hist.length)]
      simp
    have hgetlt : ∀ k, k < hist.length →
        (hist ++ [d]).getD k default = hist.getD k default := by
      intro k hk
      exact List.getD_append _ _ _ _ hk
    rw [lastAppearance_append_singleton]
    by_cases hd : num ∈ d.uniqueNumbers
    · rw [if_pos hd]
      constructor
      · intro h
        have hi : i = hist.length := by
          injection h with h; omega
        subst hi
        refine ⟨by omega, by rwa [hgetlast], ?_⟩
        intro j hj hjlen
        omega
      · rintro ⟨hi, _, hmax⟩
        have : i = hist.length := by
          by_contra hne
          have hi2 : i < hist.length := by omega
          have := hmax hist.length hi2 (by omega)
          rw [hgetlast] at this
          exact this hd
        rw [this]
    · rw [if_neg hd, ih i]
      constructor
      · rintro ⟨hi, hmem, hmax⟩
        refine ⟨by omega, by rwa [hgetlt i hi], ?_⟩
        intro j hj hjlen
        by_cases hjl : j < hist.length
        · rw [hgetlt j hjl]; exact hmax j hj hjl
        · have : j = hist.length := by omega
          rw [this, hgetlast]; exact hd
      · rintro ⟨hi, hmem, hmax⟩
        have hilt : i < hist.length := by
          by_contra hge
          have : i = hist.length := by omega
          rw [this, hgetlast] at hmem
          exact hd hmem
        refine ⟨hilt, by rwa [hgetlt i hilt] at hmem, ?_⟩
        intro j hj hjlen
        have := hmax j hj (by omega)
        rwa [hgetlt j hjlen] at this

/-! ## Claim theorems: analyzer gan status (C4) -/

/-- C4.  For every non-empty prepared history and universe member, the
`getGanStatus` entry satisfies `daysGone ≥ 0`; `daysGone` equals the history
length (`currentDayIndex`) iff the member never appears in any record's
`uniqueNumbers`; and when the member does appear with most recent occurrence
at index `i`, `daysGone = currentDayIndex - i - 1`. -/
theorem ganStatus_spec (hist : List DayRec) (hne : hist ≠ [])
    (hp : PreparedHistory hist) (num : Nat) (hnum : num < 100) :
    0 ≤ (getGanStatus hist num).daysGone ∧
    ((getGanStatus hist num).daysGone = hist.length ↔
      ∀ d ∈ hist, num ∉ d.uniqueNumbers) ∧
    (∀ i, i < hist.length → num ∈ (hist.getD i default).uniqueNumbers →
      (∀ j, i < j → j < hist.length →
        num ∉ (hist.getD j default).uniqueNumbers) →
      (getGanStatus hist num).daysGone = (hist.length : Int) - i - 1) := by
  refine ⟨?_, ?_, ?_⟩
  · unfold getGanStatus
    cases h : lastAppearance hist num with
    | none => simp
    | some i =>
      have := ((lastAppearance_eq_some_iff num hist i).mp h).1
      simp only
      omega
  · unfold getGanStatus
    cases h : lastAppearance hist num with
    | none =>
      simp only
      rw [← lastAppearance_eq_none_iff num hist] at *
      simp [h]
    | some i =>
      have hi := ((lastAppearance_eq_some_iff num hist i).mp h).1
      have hmem := ((lastAppearance_eq_some_iff num hist i).mp h).2.1
      simp only
      constructor
      · intro hEq; omega
      · intro hnever
        rw [List.getD_eq_getElem _ _ hi] at hmem
        exact absurd hmem (hnever _ (List.getElem_mem hi))
  · intro i hi hmem hmax
    have : lastAppearance hist num = some i :=
      (lastAppearance_eq_some_iff num hist i).mpr ⟨hi, hmem, hmax⟩
    unfold getGanStatus
    rw [this]

/-! ## Helper lemmas: backward streak walk -/

theorem walkStreak_le (num : Nat) : ∀ (recent : List DayRec),
    walkStreak recent num ≤ recent.length := by
  intro recent
  induction recent with
  | nil => exact Nat.le_refl 0
  | cons d ds ih =>
    rw [walkStreak]
    by_cases hd : num ∈ d.uniqueNumbers
    · rw [if_pos hd]; simp only [List.length_cons]; omega
    · rw [if_neg hd]; exact Nat.zero_le _

theorem walkStreak_mem (num : Nat) : ∀ (recent : List DayRec) (k : Nat),
    k < walkStreak recent num →
    num ∈ (recent.getD k default).uniqueNumbers := by
  intro recent
  induction recent with
  | nil => intro k hk; exact absurd hk (by simp [walkStreak])
  | cons d ds ih =>
    intro k hk
    rw [walkStreak] at hk
    by_cases hd : num ∈ d.uniqueNumbers
    · rw [if_pos hd] at hk
      cases k with
      | zero => simpa using hd
      | succ j =>
        have : j < walkStreak ds num := by omega
        simpa using ih j this
    · rw [if_neg hd] at hk
      omega

theorem walkStreak_stop (num : Nat) : ∀ (recent : List DayRec),
    walkStreak recent num < recent.length →
    num ∉ (recent.getD (walkStreak recent num) default).uniqueNumbers := by
  intro recent
  induction recent with
  | nil => intro h; exact absurd h (by simp [walkStreak])
  | cons d ds ih =>
    intro h
    rw [walkStreak]
    by_cases hd : num ∈ d.uniqueNumbers
    · rw [if_pos hd]
      rw [walkStreak, if_pos hd] at h
      have : walkStreak ds num < ds.length := by simp at h; omega
      simpa [Nat.add_comm 1 (walkStreak ds num)] using ih this
    · rw [if_neg hd]
      simpa using hd

theorem recent_getD (hist : List DayRec) (maxC : Nat) (h : maxC ≤ hist.length)
    (k : Nat) (hk : k < maxC) :
    (hist.reverse.take maxC).getD k default =
      hist.getD (hist.length - 1 - k) default := by
  have hk1 : k < (hist.reverse.take maxC).length := by
    simp only [List.length_take, List.length_reverse]
    omega
  have hk2 : hist.length - 1 - k < hist.length := by omega
  rw [List.getD_eq_getElem _ _ hk1, List.getD_eq_getElem _ _ hk2]
  rw [List.getElem_take]
  exact List.getElem_reverse _

/-! ## Claim theorems: consecutive-appearance streak (C9) -/

/-- C9 counterexample: on a one-day history containing number 7, the default
window `maxConsecutiveDays = 3` exceeds the history length, so the code
reports 0 while the spec's backward walk reports 1 — refuting the claim's
"including histories whose length is smaller than N". -/
theorem consecutiveAppearance_cex :
    getConsecutiveAppearance [⟨[7], [7]⟩] 3 7 = 0 ∧
    specConsecutiveStreak [⟨[7], [7]⟩] 3 7 = 1 := by
  decide

/-- C9 amended.  For every non-empty prepared history, universe member and
window `N ≥ 1`: when the history has at least `N` records,
`getConsecutiveAppearance` reports the count of the most recent `N` records,
walking backward from the latest, that contain the member with no gap,
stopping at the first record that does not contain it; when the history is
shorter than `N` it reports 0 for every member. -/
theorem consecutiveAppearance_spec (hist : List DayRec) (hne : hist ≠ [])
    (hp : PreparedHistory hist) (maxC : Nat) (hmax : 1 ≤ maxC) (num : Nat)
    (hnum : num < 100) :
    (hist.length < maxC → getConsecutiveAppearance hist maxC num = 0) ∧
    (maxC ≤ hist.length →
      getConsecutiveAppearance hist maxC num =
        specConsecutiveStreak hist maxC num ∧
      getConsecutiveAppearance hist maxC num ≤ maxC ∧
      (∀ k, k < getConsecutiveAppearance hist maxC num →
        num ∈ (hist.getD (hist.length - 1 - k) default).uniqueNumbers) ∧
      (getConsecutiveAppearance hist maxC num < maxC →
        num ∉ (hist.getD
          (hist.length - 1 - getConsecutiveAppearance hist maxC num)
          default).uniqueNumbers)) := by
  constructor
  · intro hshort
    rw [getConsecutiveAppearance, if_pos hshort]
  · intro hlong
    have hnotlt : ¬ hist.length < maxC := by omega
    have heq : getConsecutiveAppearance hist maxC num =
        walkStreak (hist.reverse.take maxC) num := by
      rw [getConsecutiveAppearance, if_neg hnotlt]
    have hreclen : (hist.reverse.take maxC).length = maxC := by
      simp only [List.length_take, List.length_reverse]
      omega
    have hle : walkStreak (hist.reverse.take maxC) num ≤ maxC := by
      have := walkStreak_le num (hist.reverse.take maxC)
      omega
    refine ⟨heq, by rw [heq]; exact hle, ?_, ?_⟩
    · intro k hk
      rw [heq] at hk
      have hkm : k < maxC := by omega
      rw [← recent_getD hist maxC hlong k hkm]
      exact walkStreak_mem num _ k hk
    · intro hlt
      rw [heq] at hlt ⊢
      rw [← recent_getD hist maxC hlong _ hlt]
      apply walkStreak_stop
      omega

/-- C9 witness: the amended theorem applied to a concrete two-day history
(number 7 landed on the last day only) with window 2. -/
theorem consecutiveAppearance_spec_witness :
    ([(⟨[], []⟩ : DayRec), ⟨[7], [7]⟩] ≠ [] ∧
      PreparedHistory [⟨[], []⟩, ⟨[7], [7]⟩] ∧ (1 : Nat) ≤ 2 ∧ (7 : Nat) < 100) ∧
    (([(⟨[], []⟩ : DayRec), ⟨[7], [7]⟩].length < 2 →
        getConsecutiveAppearance [⟨[], []⟩, ⟨[7], [7]⟩] 2 7 = 0) ∧
      (2 ≤ [(⟨[], []⟩ : DayRec), ⟨[7], [7]⟩].length →
        getConsecutiveAppearance [⟨[], []⟩, ⟨[7], [7]⟩] 2 7 =
          specConsecutiveStreak [⟨[], []⟩, ⟨[7], [7]⟩] 2 7 ∧
        getConsecutiveAppearance [⟨[], []⟩, ⟨[7], [7]⟩] 2 7 ≤ 2 ∧
        (∀ k, k < getConsecutiveAppearance [⟨[], []⟩, ⟨[7], [7]⟩] 2 7 →
          7 ∈ ([(⟨[], []⟩ : DayRec), ⟨[7], [7]⟩].getD
            ([(⟨[], []⟩ : DayRec), ⟨[7], [7]⟩].length - 1 - k)
            default).uniqueNumbers) ∧
        (getConsecutiveAppearance [⟨[], []⟩, ⟨[7], [7]⟩] 2 7 < 2 →
          7 ∉ ([(⟨[], []⟩ : DayRec), ⟨[7], [7]⟩].getD
            ([(⟨[], []⟩ : DayRec), ⟨[7], [7]⟩].length - 1 -
              getConsecutiveAppearance [⟨[], []⟩, ⟨[7], [7]⟩] 2 7)
            default).uniqueNumbers))) :=
  ⟨⟨by decide, by decide, by decide, by decide⟩,
    consecutiveAppearance_spec [⟨[], []⟩, ⟨[7], [7]⟩] (by decide) (by decide) 2
      (by decide) 7 (by decide)⟩

deriving instance DecidableEq for Except

/-! ## Claim theorems: cycle analysis (C8) -/

/-- C8.  The code cannot report the claimed `consistencyScore`: on a two-day
history on which number 7 landed both days (two appearances, one gap, so the
claim demands `consistencyScore = 1`), `getNumberCycleAnalysis` throws a
TypeError, because the gap-average call `averageArray` dereferences
`this.sumArray` with `this` bound to the worker global scope.  And on a
one-day history (a single appearance, fewer than 2 gaps, so the claim
demands 1) the call returns, but reports `consistencyScore = 0` for
number 7. -/
theorem cycleAnalysis_code_behavior :
    getNumberCycleAnalysis [⟨[7], [7]⟩, ⟨[7], [7]⟩] = .error .typeError ∧
    (getNumberCycleAnalysis [⟨[7], [7]⟩]).map
        (fun m => (m.lookup 7).map (fun ci => ci.consistencyScore)) =
      .ok (some 0) := by
  constructor
  · decide
  · decide

/-! ## Claim theorems: periodic bridge detection (C7) -/

/-- C7.  For every non-empty prepared history, `minOccurrences ≥ 1`,
`maxPeriod ≥ 1` and lookback window: the returned collection is
duplicate-free (a set with no score magnitude), and a number belongs to it
iff it is a universe member with at least `minOccurrences` appearance
indices in the window such that for some period in `1..maxPeriod` a run of
`minOccurrences` consecutive appearance indices is spaced exactly `period`
apart and its last index plus `period` equals `currentDayIndex` (the
history length). -/
theorem consistentPeriodBridge_iff (hist : List DayRec) (hne : hist ≠ [])
    (hp : PreparedHistory hist) (minOcc maxPeriod daysLookback : Nat)
    (hmin : 1 ≤ minOcc) (hmax : 1 ≤ maxPeriod) :
    (getConsistentPeriodBridge minOcc maxPeriod daysLookback hist).Nodup ∧
    ∀ num, num ∈ getConsistentPeriodBridge minOcc maxPeriod daysLookback hist ↔
      (num < 100 ∧
        minOcc ≤ (appearanceIndices hist daysLookback num).length ∧
        ∃ period, 1 ≤ period ∧ period ≤ maxPeriod ∧
          ∃ i, i + minOcc ≤ (appearanceIndices hist daysLookback num).length ∧
            (∀ j, j + 1 < minOcc →
              (appearanceIndices hist daysLookback num).getD (i + j + 1) 0 =
                (appearanceIndices hist daysLookback num).getD (i + j) 0 +
                  period) ∧
            (appearanceIndices hist daysLookback num).getD
                (i + minOcc - 1) 0 + period = hist.length) := by
  constructor
  · exact (List.nodup_range 100).filter _
  · intro num
    rw [getConsistentPeriodBridge, List.mem_filter, List.mem_range,
      isBridgeCandidate]
    simp only [Bool.and_eq_true, decide_eq_true_eq, List.any_eq_true,
      List.all_eq_true, beq_iff_eq, List.mem_range'_1, List.mem_range]
    constructor
    · rintro ⟨h100, hlen, period, ⟨hp1, hp2⟩, i, hi, hrun, hland⟩
      refine ⟨h100, hlen, period, hp1, by omega, i, by omega, ?_, hland⟩
      intro j hj
      have := hrun j (by omega)
      omega
    · rintro ⟨h100, hlen, period, hp1, hp2, i, hi, hrun, hland⟩
      refine ⟨h100, hlen, period, ⟨hp1, by omega⟩, i, by omega, ?_, hland⟩
      intro j hj
      have := hrun j (by omega)
      omega

/-- C7 witness: the theorem applied to a concrete six-day history on which
number 7 landed every second day (period 2, projecting onto day index 6). -/
theorem consistentPeriodBridge_iff_witness :
    ([(⟨[7], [7]⟩ : DayRec), ⟨[], []⟩, ⟨[7], [7]⟩, ⟨[], []⟩, ⟨[7], [7]⟩,
        ⟨[], []⟩] ≠ [] ∧
      PreparedHistory
        [⟨[7], [7]⟩, ⟨[], []⟩, ⟨[7], [7]⟩, ⟨[], []⟩, ⟨[7], [7]⟩, ⟨[], []⟩] ∧
      (1 : Nat) ≤ 3 ∧ (1 : Nat) ≤ 7) ∧
    7 ∈ getConsistentPeriodBridge 3 7 60
      [⟨[7], [7]⟩, ⟨[], []⟩, ⟨[7], [7]⟩, ⟨[], []⟩, ⟨[7], [7]⟩, ⟨[], []⟩] :=
  ⟨⟨by decide, by decide, by decide, by decide⟩, by
    refine ((consistentPeriodBridge_iff
      [⟨[7], [7]⟩, ⟨[], []⟩, ⟨[7], [7]⟩, ⟨[], []⟩, ⟨[7], [7]⟩, ⟨[], []⟩]
      (by decide) (by decide) 3 7 60 (by decide) (by decide)).2 7).mpr ?_
    refine ⟨by decide, by decide, 2, by decide, by decide, 0, by decide,
      ?_, by decide⟩
    intro j hj
    have hj2 : j = 0 ∨ j = 1 := by omega
    rcases hj2 with rfl | rfl <;> decide⟩

/-! ## Helper lemmas: the candidate ordering -/

theorem sortedNums_perm (sc : Nat → ℚ) : (sortedNums sc).Perm (List.range 100) := by
  have h1 : (sortedNums sc).Perm ((scoreEntries sc).map Prod.fst) :=
    (List.perm_insertionSort _ _).map _
  have h2 : (scoreEntries sc).map Prod.fst = List.range 100 := by
    rw [scoreEntries, List.map_map]
    exact List.map_id'' (fun _ => rfl) _
  rwa [h2] at h1

theorem sortedNums_length (sc : Nat → ℚ) : (sortedNums sc).length = 100 := by
  rw [(sortedNums_perm sc).length_eq, List.length_range]

theorem sortedNums_nodup (sc : Nat → ℚ) : (sortedNums sc).Nodup :=
  (sortedNums_perm sc).nodup_iff.mpr (List.nodup_range 100)

theorem mem_sortedNums (sc : Nat → ℚ) (n : Nat) :
    n ∈ sortedNums sc ↔ n < 100 := by
  rw [(sortedNums_perm sc).mem_iff, List.mem_range]

theorem tempPredictionPool_sublist (sc : Nat → ℚ) :
    (tempPredictionPool sc).Sublist (sortedNums sc) :=
  List.take_sublist _ _

theorem tempPredictionPool_length (sc : Nat → ℚ) :
    (tempPredictionPool sc).length = 32 := by
  rw [tempPredictionPool, List.length_take, sortedNums_length]
  rfl

theorem tempPredictionPool_nodup (sc : Nat → ℚ) :
    (tempPredictionPool sc).Nodup :=
  (tempPredictionPool_sublist sc).nodup (sortedNums_nodup sc)

/-! ## Helper lemmas: the diversification walk -/

theorem nodup_append_singleton {l : List Nat} {a : Nat} (h : l.Nodup)
    (ha : a ∉ l) : (l ++ [a]).Nodup := by
  simp only [List.nodup_append, List.nodup_cons, List.not_mem_nil,
    not_false_iff, List.nodup_nil, List.disjoint_singleton, true_and, and_true]
  exact ⟨h, ha⟩

theorem considerNum_selected (st : SelState) (num : Nat) :
    (considerNum st num).selected = st.selected ∨
    (considerNum st num).selected = st.selected ++ [num] := by
  simp only [considerNum]
  split
  · exact Or.inl rfl
  · split
    all_goals split
    all_goals first
      | exact Or.inr rfl
      | exact Or.inl rfl

theorem foldl_considerNum_inv {P : SelState → Prop} :
    ∀ (l : List Nat) (st : SelState),
      (∀ s n, n ∈ l → P s → P (considerNum s n)) → P st →
      P (l.foldl considerNum st) := by
  intro l
  induction l with
  | nil => intro st _ h0; exact h0
  | cons n ns ih =>
    intro st hstep h0
    rw [List.foldl_cons]
    exact ih _ (fun s m hm => hstep s m (List.mem_cons_of_mem _ hm))
      (hstep st n (List.mem_cons_self _ _) h0)

theorem foldl_considerNum_append :
    ∀ (l : List Nat) (st : SelState),
      ∃ t, (l.foldl considerNum st).selected = st.selected ++ t := by
  intro l
  induction l with
  | nil => intro st; exact ⟨[], by simp⟩
  | cons n ns ih =>
    intro st
    rw [List.foldl_cons]
    obtain ⟨t, ht⟩ := ih (considerNum st n)
    rcases considerNum_selected st n with h | h
    · exact ⟨t, by rw [ht, h]⟩
    · exact ⟨n :: t, by rw [ht, h]; simp⟩

/-- The state invariant the walk maintains for the basic shape claims. -/
def GoodState (st : SelState) : Prop :=
  st.selected.Nodup ∧ st.selected.length ≤ NUM_PREDICTED_LOTTO_NUMBERS ∧
    ∀ x ∈ st.selected, x < 100

theorem goodState_append (sel : List Nat) (num : Nat) (hnum : num < 100)
    (hnd : sel.Nodup) (hmem : ∀ x ∈ sel, x < 100)
    (hlen : sel.length < NUM_PREDICTED_LOTTO_NUMBERS) (hnotmem : num ∉ sel)
    (hc tc totc : Nat → Nat) :
    GoodState ⟨sel ++ [num], hc, tc, totc⟩ := by
  refine ⟨nodup_append_singleton hnd hnotmem, ?_, ?_⟩
  · simp only [List.length_append, List.length_singleton]
    omega
  · intro x hx
    rcases List.mem_append.mp hx with hx | hx
    · exact hmem x hx
    · rw [List.mem_singleton.mp hx]; exact hnum

theorem considerNum_good (st : SelState) (num : Nat) (hnum : num < 100)
    (h : GoodState st) : GoodState (considerNum st num) := by
  obtain ⟨hnd, hlen, hmem⟩ := h
  simp only [considerNum]
  split
  · exact ⟨hnd, hlen, hmem⟩
  · next h1 =>
    split
    all_goals split
    · next h2 =>
      exact goodState_append _ num hnum hnd hmem (by omega) h2.2 _ _ _
    · exact ⟨hnd, hlen, hmem⟩
    · next h2 =>
      exact goodState_append _ num hnum hnd hmem (by omega) h2.2 _ _ _
    · exact ⟨hnd, hlen, hmem⟩

theorem walkPool_good (sc : Nat → ℚ) : GoodState (walkPool sc) := by
  rw [walkPool]
  refine foldl_considerNum_inv _ _ ?_ ?_
  · intro s n hn hP
    refine considerNum_good s n ?_ hP
    rw [← mem_sortedNums sc]
    exact (tempPredictionPool_sublist sc).mem hn
  · refine ⟨List.nodup_nil, ?_, ?_⟩
    · simp [initSelState, NUM_PREDICTED_LOTTO_NUMBERS]
    · simp [initSelState]

/-! ## Helper lemmas: the fallback fill -/

theorem fallbackFill_of_full : ∀ (cands selected : List Nat),
    NUM_PREDICTED_LOTTO_NUMBERS ≤ selected.length →
    fallbackFill cands selected = selected := by
  intro cands
  induction cands with
  | nil => intro sel _; rfl
  | cons c cs ih =>
    intro sel h
    rw [fallbackFill, if_pos h]

theorem fallbackFill_shape : ∀ (cands selected : List Nat),
    (fallbackFill cands selected).Nodup = True → True := fun _ _ _ => trivial

theorem fallbackFill_nodup : ∀ (cands selected : List Nat),
    selected.Nodup → (fallbackFill cands selected).Nodup := by
  intro cands
  induction cands with
  | nil => intro sel h; exact h
  | cons c cs ih =>
    intro sel h
    rw [fallbackFill]
    by_cases h1 : NUM_PREDICTED_LOTTO_NUMBERS ≤ sel.length
    · rw [if_pos h1]; exact h
    · rw [if_neg h1]
      by_cases h2 : c ∈ sel
      · rw [if_pos h2]; exact ih sel h
      · rw [if_neg h2]
        exact ih _ (nodup_append_singleton h h2)

theorem fallbackFill_mem : ∀ (cands selected : List Nat) (x : Nat),
    x ∈ fallbackFill cands selected → x ∈ selected ∨ x ∈ cands := by
  intro cands
  induction cands with
  | nil => intro sel x hx; exact Or.inl hx
  | cons c cs ih =>
    intro sel x hx
    rw [fallbackFill] at hx
    by_cases h1 : NUM_PREDICTED_LOTTO_NUMBERS ≤ sel.length
    · rw [if_pos h1] at hx; exact Or.inl hx
    · rw [if_neg h1] at hx
      by_cases h2 : c ∈ sel
      · rw [if_pos h2] at hx
        rcases ih sel x hx with h | h
        · exact Or.inl h
        · exact Or.inr (List.mem_cons_of_mem _ h)
      · rw [if_neg h2] at hx
        rcases ih _ x hx with h | h
        · rcases List.mem_append.mp h with h | h
          · exact Or.inl h
          · exact Or.inr (List.mem_cons.mpr (Or.inl (List.mem_singleton.mp h)))
        · exact Or.inr (List.mem_cons_of_mem _ h)

theorem fallbackFill_length : ∀ (cands selected : List Nat),
    cands.Nodup → selected.length ≤ NUM_PREDICTED_LOTTO_NUMBERS →
    NUM_PREDICTED_LOTTO_NUMBERS ≤
      selected.length + (cands.filter (fun c => decide (c ∉ selected))).length →
    (fallbackFill cands selected).length = NUM_PREDICTED_LOTTO_NUMBERS := by
  intro cands
  induction cands with
  | nil =>
    intro sel _ hle henough
    simp only [List.filter_nil, List.length_nil] at henough
    rw [fallbackFill]
    omega
  | cons c cs ih =>
    intro sel hnd hle henough
    rw [fallbackFill]
    by_cases h1 : NUM_PREDICTED_LOTTO_NUMBERS ≤ sel.length
    · rw [if_pos h1]; omega
    · rw [if_neg h1]
      by_cases h2 : c ∈ sel
      · rw [if_pos h2]
        refine ih sel (List.nodup_cons.mp hnd).2 hle ?_
        rw [List.filter_cons] at henough
        simp only [h2, not_true_eq_false, decide_eq_true_eq, if_false] at henough
        convert henough using 3
      · rw [if_neg h2]
        have hccs : c ∉ cs := (List.nodup_cons.mp hnd).1
        have hfilter : cs.filter (fun x => decide (x ∉ sel ++ [c])) =
            cs.filter (fun x => decide (x ∉ sel)) := by
          apply List.filter_congr
          intro x hx
          have hxc : x ≠ c := fun h => hccs (h ▸ hx)
          simp [List.mem_append, hxc]
        have hcount : ((c :: cs).filter (fun x => decide (x ∉ sel))).length =
            (cs.filter (fun x => decide (x ∉ sel))).length + 1 := by
          rw [List.filter_cons]
          simp [h2]
        refine ih _ (List.nodup_cons.mp hnd).2 ?_ ?_
        · simp only [List.length_append, List.length_singleton]; omega
        · rw [hfilter]
          rw [hcount] at henough
          simp only [List.length_append, List.length_singleton]
          omega

/-! ## Helper lemmas: the complete selection pipeline -/

theorem filter_not_mem_length (cands selected : List Nat) (hnd : cands.Nodup) :
    cands.length ≤
      selected.length + (cands.filter (fun c => decide (c ∉ selected))).length := by
  have hperm := List.filter_append_perm (fun c => decide (c ∈ selected)) cands
  have hlen := hperm.length_eq
  rw [List.length_append] at hlen
  have hsub : (cands.filter (fun c => decide (c ∈ selected))).length ≤
      selected.length := by
    refine List.Subperm.length_le ?_
    refine List.subperm_of_subset ((List.filter_sublist _).nodup hnd) ?_
    intro x hx
    simpa using (List.mem_filter.mp hx).2
  have hneg : cands.filter (fun c => !decide (c ∈ selected)) =
      cands.filter (fun c => decide (c ∉ selected)) := by
    apply List.filter_congr
    intro x _
    simp
  rw [hneg] at hlen
  omega

theorem selectAndDiversify_spec (sc : Nat → ℚ) :
    (selectAndDiversifyNumbers sc).length = NUM_PREDICTED_LOTTO_NUMBERS ∧
    (selectAndDiversifyNumbers sc).Nodup ∧
    ∀ x ∈ selectAndDiversifyNumbers sc, x < 100 := by
  obtain ⟨hnd, hlen, hmem⟩ := walkPool_good sc
  rw [selectAndDiversifyNumbers]
  refine ⟨?_, fallbackFill_nodup _ _ hnd, ?_⟩
  · refine fallbackFill_length _ _ (sortedNums_nodup sc) hlen ?_
    have h100 := filter_not_mem_length (sortedNums sc) (walkPool sc).selected
      (sortedNums_nodup sc)
    rw [sortedNums_length] at h100
    have : NUM_PREDICTED_LOTTO_NUMBERS ≤ 100 := by
      rw [NUM_PREDICTED_LOTTO_NUMBERS]; omega
    omega
  · intro x hx
    rcases fallbackFill_mem _ _ x hx with h | h
    · exact hmem x h
    · exact (mem_sortedNums sc x).mp h

theorem predictNextDayList_spec (strategies : List Strategy)
    (hist : List DayRec) :
    (predictNextDayList strategies hist).length = NUM_PREDICTED_LOTTO_NUMBERS ∧
    (predictNextDayList strategies hist).Pairwise (· < ·) ∧
    ∀ n ∈ predictNextDayList strategies hist, n < 100 := by
  obtain ⟨hlen, hnd, hmem⟩ := selectAndDiversify_spec (finalScores strategies hist)
  rw [predictNextDayList]
  have hded : dedupFirst (selectAndDiversifyNumbers (finalScores strategies hist)) =
      selectAndDiversifyNumbers (finalScores strategies hist) :=
    dedupFirst_eq_self _ hnd
  rw [hded]
  rw [if_neg (by omega)]
  rw [List.take_of_length_le (by omega)]
  have hperm := List.perm_insertionSort (fun a b : Nat => a ≤ b)
    (selectAndDiversifyNumbers (finalScores strategies hist))
  refine ⟨by rw [hperm.length_eq, hlen], ?_, ?_⟩
  · have hsortle := List.sorted_insertionSort (fun a b : Nat => a ≤ b)
      (selectAndDiversifyNumbers (finalScores strategies hist))
    have hndsort := hperm.nodup_iff.mpr hnd
    exact List.Sorted.lt_of_le hsortle hndsort
  · intro n hn
    exact hmem n (hperm.mem_iff.mp hn)

/-! ## Claim theorems: engine output shape (C1) -/

/-- C1.  For every strategy list (in particular the program's twelve
strategies) and every prepared history of length at least
`MIN_HISTORY_FOR_ANALYSIS`, `predictNextDay` returns exactly 16 distinct
members of the 100-number universe, sorted strictly ascending by numeric
value; each is rendered as a valid member of the two-digit string universe
by `padTwo`. -/
theorem predict_sixteen (strategies : List Strategy) (hist : List DayRec)
    (hp : PreparedHistory hist)
    (hlen : MIN_HISTORY_FOR_ANALYSIS ≤ hist.length) :
    ∃ l, predictNextDay strategies (some hist) = .ok l ∧
      l.length = NUM_PREDICTED_LOTTO_NUMBERS ∧
      l.Pairwise (· < ·) ∧
      ∀ n ∈ l, n < 100 ∧ padTwo n ∈ ALL_LOTTO_NUMBERS := by
  obtain ⟨h16, hsorted, hmem⟩ := predictNextDayList_spec strategies hist
  refine ⟨predictNextDayList strategies hist, ?_, h16, hsorted, ?_⟩
  · rw [predictNextDay, if_neg (by omega)]
  · intro n hn
    refine ⟨hmem n hn, ?_⟩
    rw [ALL_LOTTO_NUMBERS]
    exact List.mem_map_of_mem padTwo (List.mem_range.mpr (hmem n hn))

/-- The all-empty 200-day prepared history used by concrete instantiations. -/
def emptyHist200 : List DayRec := List.replicate 200 ⟨[], []⟩

theorem preparedHistory_replicate (n : Nat) (d : DayRec) (hd : d.Prepared) :
    PreparedHistory (List.replicate n d) :=
  fun x hx => (List.eq_of_mem_replicate hx) ▸ hd

theorem emptyHist200_prepared : PreparedHistory emptyHist200 :=
  preparedHistory_replicate 200 ⟨[], []⟩ (by decide)

theorem emptyHist200_length : emptyHist200.length = 200 :=
  List.length_replicate 200 _

/-- C1 witness: the theorem applied to the empty strategy list and a concrete
200-day prepared history. -/
theorem predict_sixteen_witness :
    (PreparedHistory emptyHist200 ∧
      MIN_HISTORY_FOR_ANALYSIS ≤ emptyHist200.length) ∧
    (∃ l, predictNextDay [] (some emptyHist200) = .ok l ∧
      l.length = NUM_PREDICTED_LOTTO_NUMBERS ∧
      l.Pairwise (· < ·) ∧
      ∀ n ∈ l, n < 100 ∧ padTwo n ∈ ALL_LOTTO_NUMBERS) :=
  ⟨⟨emptyHist200_prepared, by rw [emptyHist200_length]; decide⟩,
    predict_sixteen [] emptyHist200 emptyHist200_prepared
      (by rw [emptyHist200_length]; decide)⟩

/-! ## Claim theorems: insufficient-data guard (C3) -/

/-- C3.  For every strategy list, `predictNextDay` raises the
insufficient-data error naming the required minimum (200 days) iff the given
history is absent or shorter than `MIN_HISTORY_FOR_ANALYSIS`; in particular
an empty history fails with that error, and a history of exactly 200 days
produces a 16-number prediction without error. -/
theorem predict_error_iff (strategies : List Strategy)
    (historyData : Option (List DayRec)) :
    (predictNextDay strategies historyData =
        .error (.insufficientData MIN_HISTORY_FOR_ANALYSIS) ↔
      (historyData = none ∨
        ∃ h, historyData = some h ∧ h.length < MIN_HISTORY_FOR_ANALYSIS)) ∧
    predictNextDay strategies none =
      .error (.insufficientData MIN_HISTORY_FOR_ANALYSIS) ∧
    predictNextDay strategies (some []) =
      .error (.insufficientData MIN_HISTORY_FOR_ANALYSIS) ∧
    (∀ h, historyData = some h → h.length = MIN_HISTORY_FOR_ANALYSIS →
      ∃ l, predictNextDay strategies historyData = .ok l ∧
        l.length = NUM_PREDICTED_LOTTO_NUMBERS) := by
  refine ⟨?_, rfl, ?_, ?_⟩
  · cases historyData with
    | none => simp [predictNextDay]
    | some h =>
      rw [predictNextDay]
      by_cases hlen : h.length < MIN_HISTORY_FOR_ANALYSIS
      · rw [if_pos hlen]
        simp only [true_iff]
        exact Or.inr ⟨h, rfl, hlen⟩
      · rw [if_neg hlen]
        constructor
        · intro hcontra
          exact absurd hcontra (by simp)
        · rintro (hcontra | ⟨h2, hh2, hlt⟩)
          · exact absurd hcontra (by simp)
          · injection hh2 with hh2
            subst hh2
            exact absurd hlt (by omega)
  · rw [predictNextDay]
    rw [if_pos (by simp [MIN_HISTORY_FOR_ANALYSIS])]
  · intro h hh hlen
    subst hh
    obtain ⟨h16, _, _⟩ := predictNextDayList_spec strategies h
    refine ⟨predictNextDayList strategies h, ?_, h16⟩
    rw [predictNextDay, if_neg (by omega)]

/-- C3 witness: the success half of the theorem applied to a concrete
history of exactly 200 days. -/
theorem predict_error_iff_witness :
    ∃ l, predictNextDay [] (some emptyHist200) = .ok l ∧
      l.length = NUM_PREDICTED_LOTTO_NUMBERS :=
  (predict_error_iff [] (some emptyHist200)).2.2.2 emptyHist200 rfl
    (by rw [emptyHist200_length]; rfl)

/-! ## Helper lemmas: diversity cap invariant of the walk -/

theorem filter_append_singleton_length (sel : List Nat) (num : Nat)
    (p : Nat → Bool) :
    ((sel ++ [num]).filter p).length =
      (sel.filter p).length + (if p num then 1 else 0) := by
  rw [List.filter_append, List.length_append]
  congr 1
  by_cases hp : p num <;> simp [hp]

/-- The invariant the diversification walk maintains: the counter maps count
the selected numbers per head digit / tail digit, and among the numbers
admitted after the four exempt slots no head digit or tail digit occurs more
than three times. -/
def WalkInv (st : SelState) : Prop :=
  st.selected.Nodup ∧
  (∀ d, st.headCounts d =
    (st.selected.filter (fun n => decide (n / 10 = d))).length) ∧
  (∀ d, st.tailCounts d =
    (st.selected.filter (fun n => decide (n % 10 = d))).length) ∧
  (∀ d, ((st.selected.drop 4).filter (fun n => decide (n / 10 = d))).length ≤ 3) ∧
  (∀ d, ((st.selected.drop 4).filter (fun n => decide (n % 10 = d))).length ≤ 3)

theorem counts_update (sel : List Nat) (num : Nat) (key : Nat → Nat)
    (f : Nat → Nat)
    (hf : ∀ d, f d = (sel.filter (fun n => decide (key n = d))).length) :
    ∀ d, bump f (key num) d =
      ((sel ++ [num]).filter (fun n => decide (key n = d))).length := by
  intro d
  rw [filter_append_singleton_length, bump]
  by_cases hd : d = key num
  · subst hd
    simp [hf]
  · have : ¬ key num = d := fun h => hd h.symm
    simp [hd, hf, this]

theorem drop4_filter_exempt (sel : List Nat) (num : Nat) (p : Nat → Bool)
    (hlen : sel.length < 4) :
    (((sel ++ [num]).drop 4).filter p).length ≤ 3 := by
  have h4 : (sel ++ [num]).length ≤ 4 := by
    simp only [List.length_append, List.length_singleton]
    omega
  rw [List.drop_eq_nil_of_le h4]
  simp

theorem drop4_filter_cap (sel : List Nat) (num : Nat) (p : Nat → Bool)
    (hlen : 4 ≤ sel.length) (hcap : (sel.filter p).length < 3) :
    (((sel ++ [num]).drop 4).filter p).length ≤ 3 := by
  rw [List.drop_append_of_le_length hlen, filter_append_singleton_length]
  have hsub : ((sel.drop 4).filter p).length ≤ (sel.filter p).length :=
    ((List.drop_sublist 4 sel).filter p).length_le
  by_cases hp : p num <;> simp [hp] <;> omega

theorem drop4_filter_skip (sel : List Nat) (num : Nat) (p : Nat → Bool)
    (hlen : 4 ≤ sel.length) (hp : p num = false)
    (h : ((sel.drop 4).filter p).length ≤ 3) :
    (((sel ++ [num]).drop 4).filter p).length ≤ 3 := by
  rw [List.drop_append_of_le_length hlen, filter_append_singleton_length, hp]
  simpa using h

theorem considerNum_walkInv (st : SelState) (num : Nat) (h : WalkInv st) :
    WalkInv (considerNum st num) := by
  obtain ⟨hnd, hheads, htails, hdh, hdt⟩ := h
  simp only [considerNum]
  split
  · exact ⟨hnd, hheads, htails, hdh, hdt⟩
  · next hguard =>
    split
    · next hsmall =>
      split
      · next hcond =>
        refine ⟨nodup_append_singleton hnd hcond.2,
          counts_update _ num (fun n => n / 10) _ hheads,
          counts_update _ num (fun n => n % 10) _ htails, ?_, ?_⟩
        · intro d; exact drop4_filter_exempt _ _ _ hsmall
        · intro d; exact drop4_filter_exempt _ _ _ hsmall
      · exact ⟨hnd, hheads, htails, hdh, hdt⟩
    · next hbig =>
      split
      · next hcond =>
        obtain ⟨hcrit, hnotmem⟩ := hcond
        simp only [Bool.and_eq_true, decide_eq_true_eq] at hcrit
        obtain ⟨⟨hcaph, hcapt⟩, _hcaps⟩ := hcrit
        rw [hheads] at hcaph
        rw [htails] at hcapt
        have hbig4 : 4 ≤ st.selected.length := by omega
        refine ⟨nodup_append_singleton hnd hnotmem,
          counts_update _ num (fun n => n / 10) _ hheads,
          counts_update _ num (fun n => n % 10) _ htails, ?_, ?_⟩
        · intro d
          by_cases hd : num / 10 = d
          · subst hd
            exact drop4_filter_cap _ _ _ hbig4 hcaph
          · exact drop4_filter_skip _ _ _ hbig4 (by simp [hd]) (hdh d)
        · intro d
          by_cases hd : num % 10 = d
          · subst hd
            exact drop4_filter_cap _ _ _ hbig4 hcapt
          · exact drop4_filter_skip _ _ _ hbig4 (by simp [hd]) (hdt d)
      · exact ⟨hnd, hheads, htails, hdh, hdt⟩

theorem walkInv_walkPool (sc : Nat → ℚ) : WalkInv (walkPool sc) := by
  rw [walkPool]
  refine foldl_considerNum_inv _ _ (fun s n _ hP => considerNum_walkInv s n hP) ?_
  refine ⟨List.nodup_nil, ?_, ?_, ?_, ?_⟩ <;> intro d <;> simp [initSelState]

/-! ## Helper lemmas: the four exempt slots are the top four candidates -/

theorem considerNum_admit_small (st : SelState) (num : Nat)
    (hlen : st.selected.length < 4) (hmem : num ∉ st.selected) :
    (considerNum st num).selected = st.selected ++ [num] := by
  simp only [considerNum]
  rw [if_neg (by simp only [NUM_PREDICTED_LOTTO_NUMBERS]; omega)]
  rw [if_pos hlen, if_pos ⟨rfl, hmem⟩]

theorem walkPool_take4 (sc : Nat → ℚ) :
    (walkPool sc).selected.take 4 = (sortedNums sc).take 4 := by
  have hlen := tempPredictionPool_length sc
  have hnd := tempPredictionPool_nodup sc
  have htake : (sortedNums sc).take 4 = (tempPredictionPool sc).take 4 := by
    rw [tempPredictionPool, sortedNums_length]
    rw [List.take_take]
    rfl
  rw [walkPool, htake]
  rcases hpool : tempPredictionPool sc with _ | ⟨a, _ | ⟨b, _ | ⟨c, _ | ⟨d, rest⟩⟩⟩⟩ <;>
    rw [hpool] at hlen hnd
  · simp at hlen
  · simp at hlen
  · simp at hlen
  · simp at hlen
  · simp only [List.nodup_cons, List.mem_cons, not_or] at hnd
    have hab : a ≠ b := fun h => hnd.1.1 h
    have hac : a ≠ c := fun h => hnd.1.2.1 h
    have had : a ≠ d := fun h => hnd.1.2.2.1 h
    have hbc : b ≠ c := fun h => hnd.2.1.1 h
    have hbd : b ≠ d := fun h => hnd.2.1.2.1 h
    have hcd : c ≠ d := fun h => hnd.2.2.1.1 h
    have h1 : (considerNum initSelState a).selected = [a] := by
      rw [considerNum_admit_small initSelState a (by simp [initSelState])
        (by simp [initSelState])]
      rfl
    have h2 : (considerNum (considerNum initSelState a) b).selected = [a, b] := by
      rw [considerNum_admit_small _ b (by rw [h1]; simp only [List.length_cons, List.length_nil]; omega)
        (by rw [h1]; simp [hab.symm]), h1]
      rfl
    have h3 : (considerNum (considerNum (considerNum initSelState a) b) c).selected
        = [a, b, c] := by
      rw [considerNum_admit_small _ c (by rw [h2]; simp only [List.length_cons, List.length_nil]; omega)
        (by rw [h2]; simp [hac.symm, hbc.symm]), h2]
      rfl
    have h4 : (considerNum (considerNum (considerNum (considerNum initSelState a)
        b) c) d).selected = [a, b, c, d] := by
      rw [considerNum_admit_small _ d (by rw [h3]; simp only [List.length_cons, List.length_nil]; omega)
        (by rw [h3]; simp [had.symm, hbd.symm, hcd.symm]), h3]
      rfl
    simp only [List.foldl_cons]
    obtain ⟨t, ht⟩ := foldl_considerNum_append rest
      (considerNum (considerNum (considerNum (considerNum initSelState a) b) c) d)
    rw [ht, h4]
    simp

/-! ## Claim theorems: diversity invariant (C2) -/

/-- Splitting the walk's selection at the four exempt slots: members of the
top-4 prefix fail the not-in-top-4 test, and the conjunction filter over the
rest is bounded by the plain per-digit filter. -/
theorem filter_take4_bound (W top4 : List Nat) (p : Nat → Bool)
    (htake : W.take 4 = top4)
    (hbound : ((W.drop 4).filter p).length ≤ 3) :
    (W.filter (fun n => p n && decide (n ∉ top4))).length ≤ 3 := by
  conv_lhs => rw [(List.take_append_drop 4 W).symm]
  rw [List.filter_append, List.length_append]
  have hzero : ((W.take 4).filter
      (fun n => p n && decide (n ∉ top4))).length = 0 := by
    rw [List.length_eq_zero, List.filter_eq_nil]
    intro x hx
    simp only [Bool.and_eq_true, decide_eq_true_eq, not_and, not_not]
    intro _
    rw [← htake]
    exact hx
  have hcomm : (W.drop 4).filter (fun n => p n && decide (n ∉ top4)) =
      (W.drop 4).filter (fun n => decide (n ∉ top4) && p n) :=
    List.filter_congr (fun x _ => Bool.and_comm _ _)
  have hle : ((W.drop 4).filter
      (fun n => p n && decide (n ∉ top4))).length ≤
      ((W.drop 4).filter p).length := by
    rw [hcomm, ← List.filter_filter]
    exact (List.filter_sublist _).length_le
  omega

set_option maxRecDepth 100000 in
set_option maxHeartbeats 4000000 in
/-- C2 counterexample.  With a strategy assigning strictly decreasing scores
`2000 - n`, the candidate pool consists of the numbers 0-31; the per-category
caps block most of it, the walk admits only 11 numbers, and the raw-score
fallback of Step 3 then fills the set ignoring diversity entirely: head digit
0 occurs 9 times in the result, on five numbers (04-08) ranked outside the
top 4 by aggregate score — refuting the claim that cap violations involve
only the top-4 slots. -/
theorem diversity_cex :
    predictNextDay [⟨1, fun _ => some (fun n => (2000 : ℚ) - n)⟩]
        (some emptyHist200) =
      .ok [0, 1, 2, 3, 4, 5, 6, 7, 8, 10, 11, 12, 22, 23, 24, 31] ∧
    3 < ([0, 1, 2, 3, 4, 5, 6, 7, 8, 10, 11, 12, 22, 23, 24, 31].filter
      (fun n => decide (n / 10 = 0) &&
        decide (n ∉ topFourOf [⟨1, fun _ => some (fun n => (2000 : ℚ) - n)⟩]
          emptyHist200))).length := by
  constructor
  · with_unfolding_all decide
  · with_unfolding_all decide

/-- C2 amended.  For every strategy list and prepared history of length at
least 200: provided the diversification walk itself fills all 16 slots (so
the raw-score fallback of Step 3, which ignores the caps entirely, is not
needed — the counterexample shows it can be needed), the returned 16 contain
at most 3 numbers sharing any head digit and at most 3 sharing any tail
digit besides those ranked in the top 4 by aggregate score (the
diversity-exempt slots). -/
theorem diversity_spec (strategies : List Strategy) (hist : List DayRec)
    (hp : PreparedHistory hist)
    (hlen : MIN_HISTORY_FOR_ANALYSIS ≤ hist.length)
    (hfull : (walkPool (finalScores strategies hist)).selected.length =
      NUM_PREDICTED_LOTTO_NUMBERS) :
    ∃ l, predictNextDay strategies (some hist) = .ok l ∧
      ∀ d : Nat,
        (l.filter (fun n => decide (n / 10 = d) &&
          decide (n ∉ topFourOf strategies hist))).length ≤ 3 ∧
        (l.filter (fun n => decide (n % 10 = d) &&
          decide (n ∉ topFourOf strategies hist))).length ≤ 3 := by
  obtain ⟨hnd, _, _, hdh, hdt⟩ := walkInv_walkPool (finalScores strategies hist)
  have hWfull : NUM_PREDICTED_LOTTO_NUMBERS ≤
      (walkPool (finalScores strategies hist)).selected.length := by omega
  have hsel : selectAndDiversifyNumbers (finalScores strategies hist) =
      (walkPool (finalScores strategies hist)).selected := by
    rw [selectAndDiversifyNumbers]
    exact fallbackFill_of_full _ _ hWfull
  have hlist : predictNextDayList strategies hist =
      List.insertionSort (fun a b : Nat => a ≤ b)
        (walkPool (finalScores strategies hist)).selected := by
    rw [predictNextDayList, hsel, dedupFirst_eq_self _ hnd,
      if_neg (by omega), List.take_of_length_le (by omega)]
  have hperm : (predictNextDayList strategies hist).Perm
      (walkPool (finalScores strategies hist)).selected := by
    rw [hlist]
    exact List.perm_insertionSort _ _
  have htake : (walkPool (finalScores strategies hist)).selected.take 4 =
      topFourOf strategies hist :=
    walkPool_take4 (finalScores strategies hist)
  refine ⟨predictNextDayList strategies hist, ?_, ?_⟩
  · rw [predictNextDay, if_neg (by omega)]
  · intro d
    refine ⟨?_, ?_⟩
    · rw [(hperm.filter (fun n => decide (n / 10 = d) &&
        decide (n ∉ topFourOf strategies hist))).length_eq]
      exact filter_take4_bound _ _ _ htake (hdh d)
    · rw [(hperm.filter (fun n => decide (n % 10 = d) &&
        decide (n ∉ topFourOf strategies hist))).length_eq]
      exact filter_take4_bound _ _ _ htake (hdt d)

set_option maxRecDepth 100000 in
set_option maxHeartbeats 4000000 in
/-- C2 witness: the amended theorem applied to a concrete strategy whose top
16 candidates are mutually diverse, so the walk fills all 16 slots. -/
theorem diversity_spec_witness :
    (PreparedHistory emptyHist200 ∧
      MIN_HISTORY_FOR_ANALYSIS ≤ emptyHist200.length ∧
      (walkPool (finalScores
        [⟨1, fun _ => some (fun n =>
          if n ∈ [1, 12, 23, 34, 45, 56, 67, 78, 89, 90, 2, 13, 24, 35, 46, 57]
          then (2000 : ℚ) else 50)⟩] emptyHist200)).selected.length =
        NUM_PREDICTED_LOTTO_NUMBERS) ∧
    (∃ l, predictNextDay
        [⟨1, fun _ => some (fun n =>
          if n ∈ [1, 12, 23, 34, 45, 56, 67, 78, 89, 90, 2, 13, 24, 35, 46, 57]
          then (2000 : ℚ) else 50)⟩] (some emptyHist200) = .ok l ∧
      ∀ d : Nat,
        (l.filter (fun n => decide (n / 10 = d) &&
          decide (n ∉ topFourOf
            [⟨1, fun _ => some (fun n =>
              if n ∈ [1, 12, 23, 34, 45, 56, 67, 78, 89, 90, 2, 13, 24, 35,
                46, 57] then (2000 : ℚ) else 50)⟩] emptyHist200))).length ≤ 3 ∧
        (l.filter (fun n => decide (n % 10 = d) &&
          decide (n ∉ topFourOf
            [⟨1, fun _ => some (fun n =>
              if n ∈ [1, 12, 23, 34, 45, 56, 67, 78, 89, 90, 2, 13, 24, 35,
                46, 57] then (2000 : ℚ) else 50)⟩] emptyHist200))).length ≤ 3) :=
  ⟨⟨emptyHist200_prepared, by rw [emptyHist200_length]; decide,
      by with_unfolding_all decide⟩,
    diversity_spec _ emptyHist200 emptyHist200_prepared
      (by rw [emptyHist200_length]; decide) (by with_unfolding_all decide)⟩

/-! ## Claim theorems: reversal and bóng involutions (C10) -/

/-! ## Claim theorems: reversal and bóng involutions (C10) -/

/-! ## Helper lemmas: backtest accumulation -/

theorem dayCorrect_error (engine : List DayRec → Except EngineError (List Nat))
    (hist : List DayRec) (i : Nat) (e : EngineError)
    (h : engine (hist.take i) = .error e) : dayCorrect engine hist i = 0 := by
  rw [dayCorrect, h]

theorem stepStats_fields (engine : List DayRec → Except EngineError (List Nat))
    (hist : List DayRec) (i : Nat) (acc : BacktestStats)
    (hge : MIN_HISTORY_FOR_ANALYSIS ≤ (hist.take i).length) :
    (stepStats engine hist acc i).totalDaysTested = acc.totalDaysTested + 1 ∧
    (stepStats engine hist acc i).dailyCorrectCounts =
      acc.dailyCorrectCounts ++ [dayCorrect engine hist i] ∧
    (stepStats engine hist acc i).dailyNetProfits =
      acc.dailyNetProfits ++
        [(dayCorrect engine hist i : Int) * REWARD_PER_LOTTO_POINT_HIT -
          COST_PER_DAY_PREDICTION] ∧
    (stepStats engine hist acc i).totalInvestment =
      acc.totalInvestment + COST_PER_DAY_PREDICTION := by
  rw [stepStats, if_neg (by omega), dayCorrect]
  cases hres : engine (hist.take i) with
  | ok preds => exact ⟨rfl, rfl, rfl, rfl⟩
  | error e =>
    refine ⟨rfl, rfl, ?_, rfl⟩
    simp

theorem foldl_stats_fields (engine : List DayRec → Except EngineError (List Nat))
    (hist : List DayRec) : ∀ (l : List Nat) (acc : BacktestStats),
    (∀ i ∈ l, MIN_HISTORY_FOR_ANALYSIS ≤ (hist.take i).length) →
    (l.foldl (stepStats engine hist) acc).totalDaysTested =
      acc.totalDaysTested + l.length ∧
    (l.foldl (stepStats engine hist) acc).dailyCorrectCounts =
      acc.dailyCorrectCounts ++ l.map (dayCorrect engine hist) ∧
    (l.foldl (stepStats engine hist) acc).dailyNetProfits =
      acc.dailyNetProfits ++ l.map
        (fun i => (dayCorrect engine hist i : Int) * REWARD_PER_LOTTO_POINT_HIT -
          COST_PER_DAY_PREDICTION) ∧
    (l.foldl (stepStats engine hist) acc).totalInvestment =
      acc.totalInvestment + l.length * COST_PER_DAY_PREDICTION := by
  intro l
  induction l with
  | nil =>
    intro acc _
    refine ⟨by simp, by simp, by simp, by simp⟩
  | cons i is ih =>
    intro acc hpre
    rw [List.foldl_cons]
    obtain ⟨ht, hc, hn, hv⟩ := ih (stepStats engine hist acc i)
      (fun j hj => hpre j (List.mem_cons_of_mem _ hj))
    obtain ⟨st, sc, sn, sv⟩ := stepStats_fields engine hist i acc
      (hpre i (List.mem_cons_self _ _))
    refine ⟨?_, ?_, ?_, ?_⟩
    · rw [ht, st]
      simp only [List.length_cons]
      omega
    · rw [hc, sc]
      simp
    · rw [hn, sn]
      simp
    · rw [hv, sv]
      simp only [List.length_cons]
      push_cast
      ring

/-! ## Claim theorems: backtester (C5, C6) -/

set_option maxRecDepth 10000 in
/-- C5.  On a prepared history of 201 days — long enough, per the claim, to
test day index 200 against its 200-day prior history — `runBacktest` does
not test any day: the adjusted-start branch evaluates the undefined bare
identifier `MIN_HISTORY_FOR_ANALYSIS` (the local constant is named
`MIN_HISTORY_FOR_PREDICTION`) and the whole call throws a ReferenceError. -/
theorem backtest_reference_error :
    runBacktest (fun t => predictNextDay [] (some t))
      (List.replicate 201 ⟨[], []⟩) = .error .referenceErrorMinHistory := by
  decide

/-- C6.  For every engine function (the Backtester invokes the engine through
a dynamic property lookup) and every prepared history long enough for the
full window, `runBacktest` completes with `totalDaysTested` equal to the
number of attempted days (the full 150-day window, failed days included);
each tested day `i` is evaluated on the strict prefix `hist.take i`, a day
whose engine call throws contributes a recorded daily correct count of 0 and
a net profit of the full negative daily cost, and the full daily investment
is accumulated for every attempted day. -/
theorem backtest_counts_failed_days
    (engine : List DayRec → Except EngineError (List Nat))
    (hist : List DayRec) (hp : PreparedHistory hist)
    (hlen : MIN_HISTORY_FOR_ANALYSIS + BACKTEST_WINDOW_SIZE ≤ hist.length) :
    ∃ s, runBacktest engine hist = .ok (.stats s) ∧
      s.totalDaysTested = BACKTEST_WINDOW_SIZE ∧
      s.dailyCorrectCounts =
        (List.range' (hist.length - BACKTEST_WINDOW_SIZE)
          BACKTEST_WINDOW_SIZE).map (dayCorrect engine hist) ∧
      s.dailyNetProfits =
        (List.range' (hist.length - BACKTEST_WINDOW_SIZE)
          BACKTEST_WINDOW_SIZE).map
          (fun i => (dayCorrect engine hist i : Int) *
            REWARD_PER_LOTTO_POINT_HIT - COST_PER_DAY_PREDICTION) ∧
      s.totalInvestment = BACKTEST_WINDOW_SIZE * COST_PER_DAY_PREDICTION ∧
      (∀ i e, engine (hist.take i) = .error e →
        dayCorrect engine hist i = 0) := by
  have hmin : MIN_HISTORY_FOR_ANALYSIS = 200 := rfl
  have hwin : BACKTEST_WINDOW_SIZE = 150 := rfl
  simp only [runBacktest]
  rw [if_neg (by omega)]
  have hstart : hist.length - 1 - BACKTEST_WINDOW_SIZE + 1 =
      hist.length - BACKTEST_WINDOW_SIZE := by omega
  rw [hstart, if_neg (by omega)]
  have hcnt : hist.length - 1 + 1 - (hist.length - BACKTEST_WINDOW_SIZE) =
      BACKTEST_WINDOW_SIZE := by omega
  rw [hcnt]
  have hpre : ∀ i ∈ List.range' (hist.length - BACKTEST_WINDOW_SIZE)
      BACKTEST_WINDOW_SIZE, MIN_HISTORY_FOR_ANALYSIS ≤ (hist.take i).length := by
    intro i hi
    rw [List.mem_range'_1] at hi
    rw [List.length_take]
    omega
  obtain ⟨ht, hc, hn, hv⟩ := foldl_stats_fields engine hist
    (List.range' (hist.length - BACKTEST_WINDOW_SIZE) BACKTEST_WINDOW_SIZE)
    initStats hpre
  refine ⟨_, rfl, ?_, ?_, ?_, ?_, ?_⟩
  · rw [ht, List.length_range']
    simp [initStats]
  · rw [hc]
    simp [initStats]
  · rw [hn]
    simp [initStats]
  · rw [hv, List.length_range']
    simp [initStats]
  · intro i e he
    exact dayCorrect_error engine hist i e he

/-- C6 witness: the theorem applied to a 350-day prepared history and an
engine that always throws. -/
theorem backtest_counts_failed_days_witness :
    (PreparedHistory (List.replicate 350 (⟨[], []⟩ : DayRec)) ∧
      MIN_HISTORY_FOR_ANALYSIS + BACKTEST_WINDOW_SIZE ≤
        (List.replicate 350 (⟨[], []⟩ : DayRec)).length) ∧
    (∃ s, runBacktest
        (fun _ => .error (.insufficientData MIN_HISTORY_FOR_ANALYSIS))
        (List.replicate 350 (⟨[], []⟩ : DayRec)) = .ok (.stats s) ∧
      s.totalDaysTested = BACKTEST_WINDOW_SIZE ∧
      s.dailyCorrectCounts =
        (List.range' ((List.replicate 350 (⟨[], []⟩ : DayRec)).length -
          BACKTEST_WINDOW_SIZE) BACKTEST_WINDOW_SIZE).map
          (dayCorrect (fun _ => .error (.insufficientData
            MIN_HISTORY_FOR_ANALYSIS)) (List.replicate 350 ⟨[], []⟩)) ∧
      s.dailyNetProfits =
        (List.range' ((List.replicate 350 (⟨[], []⟩ : DayRec)).length -
          BACKTEST_WINDOW_SIZE) BACKTEST_WINDOW_SIZE).map
          (fun i => (dayCorrect (fun _ => .error (.insufficientData
              MIN_HISTORY_FOR_ANALYSIS)) (List.replicate 350 ⟨[], []⟩) i : Int)
            * REWARD_PER_LOTTO_POINT_HIT - COST_PER_DAY_PREDICTION) ∧
      s.totalInvestment = BACKTEST_WINDOW_SIZE * COST_PER_DAY_PREDICTION ∧
      (∀ i e, (fun (_ : List DayRec) => (.error (.insufficientData
            MIN_HISTORY_FOR_ANALYSIS) : Except EngineError (List Nat)))
          ((List.replicate 350 (⟨[], []⟩ : DayRec)).take i) = .error e →
        dayCorrect (fun _ => .error (.insufficientData
          MIN_HISTORY_FOR_ANALYSIS)) (List.replicate 350 ⟨[], []⟩) i = 0)) :=
  ⟨⟨preparedHistory_replicate 350 ⟨[], []⟩ (by decide),
      by rw [List.length_replicate]; decide⟩,
    backtest_counts_failed_days _ (List.replicate 350 ⟨[], []⟩)
      (preparedHistory_replicate 350 ⟨[], []⟩ (by decide))
      (by rw [List.length_replicate]; decide)⟩

set_option maxRecDepth 8000 in
/-- C10.  On every member of the two-digit universe "00".."99", digit
reversal is an involution into the universe, and the bóng (shadow) mapping
is defined, lands in the universe, and applied twice returns the original
string. -/
theorem reverse_bong_involutive :
    ∀ s ∈ ALL_LOTTO_NUMBERS,
      reverseNumber (reverseNumber s) = s ∧
      reverseNumber s ∈ ALL_LOTTO_NUMBERS ∧
      (getLotoBong s).getD "" ∈ ALL_LOTTO_NUMBERS ∧
      (getLotoBong s).bind getLotoBong = some s := by
  decide

/-- C10 witness: the theorem applied to the universe member "12". -/
theorem reverse_bong_involutive_witness :
    "12" ∈ ALL_LOTTO_NUMBERS ∧
    (reverseNumber (reverseNumber "12") = "12" ∧
      reverseNumber "12" ∈ ALL_LOTTO_NUMBERS ∧
      (getLotoBong "12").getD "" ∈ ALL_LOTTO_NUMBERS ∧
      (getLotoBong "12").bind getLotoBong = some "12") :=
  ⟨by decide, reverse_bong_involutive "12" (by decide)⟩

/-- C4 witness: the theorem applied to a concrete one-day history on which
number 7 landed. -/
theorem ganStatus_spec_witness :
    ([(⟨[7], [7]⟩ : DayRec)] ≠ [] ∧ PreparedHistory [⟨[7], [7]⟩] ∧ (7 : Nat) < 100) ∧
    (0 ≤ (getGanStatus [⟨[7], [7]⟩] 7).daysGone ∧
      ((getGanStatus [⟨[7], [7]⟩] 7).daysGone = [(⟨[7], [7]⟩ : DayRec)].length ↔
        ∀ d ∈ [(⟨[7], [7]⟩ : DayRec)], 7 ∉ d.uniqueNumbers) ∧
      (∀ i, i < [(⟨[7], [7]⟩ : DayRec)].length →
        7 ∈ ([(⟨[7], [7]⟩ : DayRec)].getD i default).uniqueNumbers →
        (∀ j, i < j → j < [(⟨[7], [7]⟩ : DayRec)].length →
          7 ∉ ([(⟨[7], [7]⟩ : DayRec)].getD j default).uniqueNumbers) →
        (getGanStatus [⟨[7], [7]⟩] 7).daysGone =
          (([(⟨[7], [7]⟩ : DayRec)].length : Int)) - i - 1)) :=
  ⟨⟨by decide, by decide, by decide⟩,
    ganStatus_spec [⟨[7], [7]⟩] (by decide) (by decide) 7 (by decide)⟩

end XSMB
